import Mathlib

/-
  Verification of the frink-loop orchestrator core against its source.

  The embedding below translates the task-ledger state module
  (src/state/todo-state.ts), the completion-gate tool
  (src/tools/mark-complete.ts), the todo tools (src/tools/todo-tools.ts),
  the external-process session manager (src/tools/claude-session.ts),
  the custom-tool command substitution (src/tools/custom-tools.ts) and the
  orchestrator-driven provider loop (src/providers/anthropic-provider.ts)
  into executable Lean definitions, and proves the specified properties.
-/

namespace FrinkLoop

/-! ## Task ledger (src/state/todo-state.ts) -/

/-- Task status enum (TodoStatus in todo-state.ts). -/
inductive TodoStatus
  | pending
  | inProgress
  | completed
  | failed
deriving DecidableEq, Repr

/-- A task record (the Todo interface). -/
structure Todo where
  id : Nat
  task : String
  status : TodoStatus
deriving DecidableEq, Repr

/-- Input item for the bulk replace (the TodoInput interface). -/
structure TodoInput where
  task : String
  status : TodoStatus
deriving DecidableEq, Repr

/-- Summary statistics (the TodoSummary interface). -/
structure TodoSummary where
  total : Nat
  pending : Nat
  inProgress : Nat
  completed : Nat
  failed : Nat
deriving DecidableEq, Repr

/-- The mutable module state of todo-state.ts. JavaScript Todo objects are
mutable references shared between the internal `todos` array and any array
returned to a caller, so the state is modelled as an object heap (cells
addressed by allocation index) together with the `todos` array holding
references into the heap, plus the `nextTodoId` counter. Allocation appends
a cell to the heap and never moves or frees existing cells, which is how a
garbage-collected runtime behaves for objects still reachable from an
outstanding snapshot. -/
structure TodoState where
  heap : List Todo
  ledger : List Nat
  nextTodoId : Nat
deriving DecidableEq, Repr

/-- The initial module state: `todos = []`, `nextTodoId = 1`. -/
def initTodoState : TodoState := ⟨[], [], 1⟩

/-- Dereference a heap cell. Out-of-range reads return a dummy cell;
well-formed states never produce them. -/
def lookupRef (s : TodoState) (r : Nat) : Todo :=
  s.heap.getD r ⟨0, "", TodoStatus.pending⟩

/-- The current contents of the `todos` array, by value. -/
def viewTodos (s : TodoState) : List Todo :=
  s.ledger.map (lookupRef s)

/-- getTodos returns `[...todos]`: a fresh array holding the same object
references as the internal array. -/
def getTodos (s : TodoState) : List Nat :=
  s.ledger

/-- Reading a previously returned snapshot at a later state: each shared
object reference in the snapshot array is dereferenced in the current heap. -/
def readSnapshot (refs : List Nat) (s : TodoState) : List Todo :=
  refs.map (lookupRef s)

/-- getTodoSummary: per-status counts over the current array. -/
def getTodoSummary (s : TodoState) : TodoSummary :=
  { total := (viewTodos s).length
    pending := ((viewTodos s).filter (fun t => t.status == TodoStatus.pending)).length
    inProgress := ((viewTodos s).filter (fun t => t.status == TodoStatus.inProgress)).length
    completed := ((viewTodos s).filter (fun t => t.status == TodoStatus.completed)).length
    failed := ((viewTodos s).filter (fun t => t.status == TodoStatus.failed)).length }

/-- The id assignment of setTodos: `newTodos.map((t, i) => ({id: i + 1, ...}))`,
written with an explicit starting index. -/
def assignIds (k : Nat) : List TodoInput → List Todo
  | [] => []
  | t :: ts => ⟨k, t.task, t.status⟩ :: assignIds (k + 1) ts

/-- setTodos: replace the entire list with freshly allocated objects carrying
ids 1..N, set `nextTodoId = N + 1`, and return the updated todos and summary. -/
def setTodos (newTodos : List TodoInput) (s : TodoState) :
    (List Todo × TodoSummary) × TodoState :=
  let cells := assignIds 1 newTodos
  let s' : TodoState :=
    { heap := s.heap ++ cells
      ledger := List.range' s.heap.length cells.length
      nextTodoId := cells.length + 1 }
  ((viewTodos s', getTodoSummary s'), s')

/-- addTodo: allocate one object with id `nextTodoId`, push its reference,
increment the counter, and return the new task. -/
def addTodo (task : String) (status : TodoStatus) (s : TodoState) :
    Todo × TodoState :=
  let todo : Todo := ⟨s.nextTodoId, task, status⟩
  (todo,
   { heap := s.heap ++ [todo]
     ledger := s.ledger ++ [s.heap.length]
     nextTodoId := s.nextTodoId + 1 })

/-- The `todos.find(t => t.id === id)` of the update operations: the first
reference in the array whose object has the given id. -/
def findRef (s : TodoState) (id : Nat) : List Nat → Option Nat
  | [] => none
  | r :: rs => if (lookupRef s r).id == id then some r else findRef s id rs

/-- updateTodoStatus: find the task by id, mutate its status field in place,
and return the updated task, or return undefined (none) leaving the state
untouched. -/
def updateTodoStatus (id : Nat) (status : TodoStatus) (s : TodoState) :
    Option Todo × TodoState :=
  match findRef s id s.ledger with
  | none => (none, s)
  | some r =>
    let t := lookupRef s r
    let t' : Todo := { t with status := status }
    (some t', { s with heap := s.heap.set r t' })

/-- updateTodoTask: find the task by id and mutate its description in place. -/
def updateTodoTask (id : Nat) (task : String) (s : TodoState) :
    Option Todo × TodoState :=
  match findRef s id s.ledger with
  | none => (none, s)
  | some r =>
    let t := lookupRef s r
    let t' : Todo := { t with task := task }
    (some t', { s with heap := s.heap.set r t' })

/-- removeTodo: splice the first matching reference out of the array; the
heap cell itself is untouched. Returns whether a task was found. -/
def removeTodo (id : Nat) (s : TodoState) : Bool × TodoState :=
  match s.ledger.findIdx? (fun r => (lookupRef s r).id == id) with
  | none => (false, s)
  | some i => (true, { s with ledger := s.ledger.eraseIdx i })

/-- resetTodoState: `todos = []`, `nextTodoId = 1`. The heap is retained,
as a garbage collector would retain objects still held by snapshots. -/
def resetTodoState (s : TodoState) : TodoState :=
  { s with ledger := [], nextTodoId := 1 }

/-- The todo-update tool (todoUpdateTool in todo-tools.ts): reports
success false with a not-found error when updateTodoStatus returns
undefined, success true otherwise. -/
def todoUpdateTool (id : Nat) (status : TodoStatus) (s : TodoState) :
    Bool × TodoState :=
  match updateTodoStatus id status s with
  | (none, s') => (false, s')
  | (some _, s') => (true, s')

/-! ## Basic ledger lemmas -/

/-- Reading the slot right past a list prefix of an append. -/
theorem getD_append_length (heap : List Todo) (c : Todo) (cs : List Todo)
    (d : Todo) : (heap ++ c :: cs).getD heap.length d = c := by
  induction heap with
  | nil => rfl
  | cons h hs ih => simpa using ih

/-- Reads strictly inside the left part of an append are unchanged. -/
theorem getD_append_left (heap cells : List Todo) (r : Nat) (d : Todo)
    (h : r < heap.length) : (heap ++ cells).getD r d = heap.getD r d := by
  induction heap generalizing r with
  | nil => simp at h
  | cons x xs ih =>
    cases r with
    | zero => rfl
    | succ n =>
      simp only [List.length_cons, Nat.succ_lt_succ_iff] at h
      simpa using ih n h

/-- Dereferencing the freshly allocated block of an append. -/
theorem map_range_lookup (heap cells : List Todo) (d : Todo) :
    (List.range' heap.length cells.length).map
      (fun r => (heap ++ cells).getD r d) = cells := by
  induction cells generalizing heap with
  | nil => rfl
  | cons c cs ih =>
    simp only [List.length_cons, List.range'_succ, List.map_cons]
    refine congrArg₂ (· :: ·) (getD_append_length heap c cs d) ?_
    have h2 := ih (heap ++ [c])
    have hlen : (heap ++ [c]).length = heap.length + 1 := by simp
    have happ : (heap ++ [c]) ++ cs = heap ++ c :: cs := by simp
    rw [hlen, happ] at h2
    exact h2

/-- The contents after a bulk replace are exactly the input tasks with ids
assigned from 1. -/
theorem viewTodos_setTodos (items : List TodoInput) (s : TodoState) :
    viewTodos (setTodos items s).2 = assignIds 1 items := by
  unfold setTodos viewTodos lookupRef
  exact map_range_lookup s.heap (assignIds 1 items) _

/-- assignIds preserves length. -/
theorem assignIds_length (k : Nat) (items : List TodoInput) :
    (assignIds k items).length = items.length := by
  induction items generalizing k with
  | nil => rfl
  | cons t ts ih => simp [assignIds, ih]

/-- The four status filters partition any task list. -/
theorem filter_status_partition (l : List Todo) :
    (l.filter (fun t => t.status == TodoStatus.pending)).length +
    (l.filter (fun t => t.status == TodoStatus.inProgress)).length +
    (l.filter (fun t => t.status == TodoStatus.completed)).length +
    (l.filter (fun t => t.status == TodoStatus.failed)).length = l.length := by
  induction l with
  | nil => rfl
  | cons t ts ih =>
    cases h : t.status <;> simp [List.filter_cons, h, beq_iff_eq] <;> omega

/-! ## Claim C7 -/

/-- C7: for every input list, replaceAll (setTodos) followed by summary
(getTodoSummary) yields a summary whose per-status counts sum exactly to
total, and whose total equals the length of the replaced list. -/
theorem C7_replaceAll_summary_counts (items : List TodoInput) (s : TodoState) :
    (getTodoSummary (setTodos items s).2).pending +
      (getTodoSummary (setTodos items s).2).inProgress +
      (getTodoSummary (setTodos items s).2).completed +
      (getTodoSummary (setTodos items s).2).failed =
      (getTodoSummary (setTodos items s).2).total ∧
    (getTodoSummary (setTodos items s).2).total = items.length := by
  constructor
  · exact filter_status_partition (viewTodos (setTodos items s).2)
  · show (viewTodos (setTodos items s).2).length = items.length
    rw [viewTodos_setTodos]
    exact assignIds_length 1 items

/-! ## Claim C8 -/

/-- find returns nothing when no task in the array carries the id. -/
theorem findRef_eq_none (s : TodoState) (id : Nat) (refs : List Nat)
    (h : ∀ r ∈ refs, (lookupRef s r).id ≠ id) :
    findRef s id refs = none := by
  induction refs with
  | nil => rfl
  | cons r rs ih =>
    have hr : ((lookupRef s r).id == id) = false := by
      simpa using h r (by simp)
    simp only [findRef, hr, if_neg]
    exact ih (fun q hq => h q (by simp [hq]))

/-- C8: for every ledger state and every id not present in it,
updateTodoStatus returns undefined (a not-found failure, which the
todo-update tool reports as success false) and the state afterwards is
exactly the state before. -/
theorem C8_updateStatus_absent_id (id : Nat) (st : TodoStatus) (s : TodoState)
    (h : ∀ t ∈ viewTodos s, t.id ≠ id) :
    updateTodoStatus id st s = (none, s) ∧
    todoUpdateTool id st s = (false, s) := by
  have hnone : findRef s id s.ledger = none := by
    refine findRef_eq_none s id s.ledger (fun r hr => ?_)
    exact h (lookupRef s r) (List.mem_map_of_mem _ hr)
  constructor
  · unfold updateTodoStatus
    rw [hnone]
  · unfold todoUpdateTool updateTodoStatus
    rw [hnone]

/-- Witness for C8 at a concrete state holding one completed task with id 1,
queried with the absent id 2. -/
theorem C8_witness :
    updateTodoStatus 2 TodoStatus.pending
        (setTodos [⟨"a", TodoStatus.completed⟩] initTodoState).2 =
      (none, (setTodos [⟨"a", TodoStatus.completed⟩] initTodoState).2) ∧
    todoUpdateTool 2 TodoStatus.pending
        (setTodos [⟨"a", TodoStatus.completed⟩] initTodoState).2 =
      (false, (setTodos [⟨"a", TodoStatus.completed⟩] initTodoState).2) :=
  C8_updateStatus_absent_id 2 TodoStatus.pending
    (setTodos [⟨"a", TodoStatus.completed⟩] initTodoState).2 (by decide)

/-! ## Claim C6: id discipline under add and remove -/

/-- One ledger operation of a generation: a single add (addTodo) or a
removal by id (removeTodo). -/
inductive LedgerOp
  | add (task : String) (status : TodoStatus)
  | remove (id : Nat)
deriving DecidableEq, Repr

/-- Apply one operation to the state. -/
def applyOp (s : TodoState) : LedgerOp → TodoState
  | .add task st => (addTodo task st s).2
  | .remove id => (removeTodo id s).2

/-- The ids handed out by the add operations of a sequence, in order. -/
def issuedIds (s : TodoState) : List LedgerOp → List Nat
  | [] => []
  | .add task st :: ops => (addTodo task st s).1.id :: issuedIds (addTodo task st s).2 ops
  | .remove id :: ops => issuedIds (removeTodo id s).2 ops

/-- removeTodo never touches the id counter. -/
theorem removeTodo_nextTodoId (id : Nat) (s : TodoState) :
    (removeTodo id s).2.nextTodoId = s.nextTodoId := by
  unfold removeTodo
  cases s.ledger.findIdx? (fun r => (lookupRef s r).id == id) <;> rfl

/-- Every id issued during a sequence is at least the starting counter. -/
theorem issuedIds_lower_bound (ops : List LedgerOp) (s : TodoState) :
    ∀ i ∈ issuedIds s ops, s.nextTodoId ≤ i := by
  induction ops generalizing s with
  | nil => intro i hi; simp [issuedIds] at hi
  | cons op ops ih =>
    cases op with
    | add task st =>
      intro i hi
      simp only [issuedIds, List.mem_cons] at hi
      rcases hi with rfl | hi
      · exact Nat.le_refl _
      · have h2 := ih (addTodo task st s).2 i hi
        have h3 : (addTodo task st s).2.nextTodoId = s.nextTodoId + 1 := rfl
        omega
    | remove id =>
      intro i hi
      simp only [issuedIds] at hi
      have h2 := ih (removeTodo id s).2 i hi
      rw [removeTodo_nextTodoId] at h2
      exact h2

/-- The ids of a bulk replace are assigned consecutively from the start
index. -/
theorem assignIds_map_id (k : Nat) (items : List TodoInput) :
    (assignIds k items).map Todo.id = List.range' k items.length := by
  induction items generalizing k with
  | nil => rfl
  | cons t ts ih => simp [assignIds, List.range'_succ, ih]

/-- C6: within one ledger generation, for any sequence of add and remove
operations starting from a state whose task ids are all below the id
counter, the ids issued by add are strictly increasing (hence pairwise
distinct and never reused, even after the task carrying one of them is
removed) and are fresh with respect to every task present at the start;
moreover a bulk replace (setTodos) starts a new generation by reassigning
ids 1..N in list order. -/
theorem C6_ids_strictly_increasing (s : TodoState) (ops : List LedgerOp)
    (h : ∀ t ∈ viewTodos s, t.id < s.nextTodoId) :
    List.Sorted (· < ·) (issuedIds s ops) ∧
    (∀ i ∈ issuedIds s ops, ∀ t ∈ viewTodos s, t.id < i) ∧
    (∀ (items : List TodoInput) (s' : TodoState),
      (viewTodos (setTodos items s').2).map Todo.id =
        List.range' 1 items.length) := by
  refine ⟨?_, ?_, ?_⟩
  · clear h
    induction ops generalizing s with
    | nil => exact List.sorted_nil
    | cons op ops ih =>
      cases op with
      | add task st =>
        simp only [issuedIds, List.sorted_cons]
        refine ⟨?_, ih (addTodo task st s).2⟩
        intro b hb
        have h2 := issuedIds_lower_bound ops (addTodo task st s).2 b hb
        have h3 : (addTodo task st s).2.nextTodoId = s.nextTodoId + 1 := rfl
        have h4 : (addTodo task st s).1.id = s.nextTodoId := rfl
        omega
      | remove id =>
        simpa only [issuedIds] using ih (removeTodo id s).2
  · intro i hi t ht
    have h2 := issuedIds_lower_bound ops s i hi
    have h3 := h t ht
    omega
  · intro items s'
    rw [viewTodos_setTodos, assignIds_map_id]

/-- Witness for C6: a generation started by a bulk replace of one task,
then add, remove of the added task, add again. -/
theorem C6_witness :
    List.Sorted (· < ·)
      (issuedIds (setTodos [⟨"a", TodoStatus.pending⟩] initTodoState).2
        [LedgerOp.add "b" TodoStatus.pending, LedgerOp.remove 2,
         LedgerOp.add "c" TodoStatus.pending]) ∧
    (∀ i ∈ issuedIds (setTodos [⟨"a", TodoStatus.pending⟩] initTodoState).2
        [LedgerOp.add "b" TodoStatus.pending, LedgerOp.remove 2,
         LedgerOp.add "c" TodoStatus.pending],
      ∀ t ∈ viewTodos (setTodos [⟨"a", TodoStatus.pending⟩] initTodoState).2,
        t.id < i) ∧
    (∀ (items : List TodoInput) (s' : TodoState),
      (viewTodos (setTodos items s').2).map Todo.id =
        List.range' 1 items.length) :=
  C6_ids_strictly_increasing
    (setTodos [⟨"a", TodoStatus.pending⟩] initTodoState).2
    [LedgerOp.add "b" TodoStatus.pending, LedgerOp.remove 2,
     LedgerOp.add "c" TodoStatus.pending]
    (by decide)

/-! ## Claim C5: snapshots and aliasing -/

/-- All array entries reference live heap cells. -/
def refsValid (s : TodoState) : Prop := ∀ r ∈ s.ledger, r < s.heap.length

/-- Snapshot reads depend only on the heap. -/
theorem readSnapshot_heap_eq (refs : List Nat) (s₁ s₂ : TodoState)
    (h : s₁.heap = s₂.heap) : readSnapshot refs s₁ = readSnapshot refs s₂ := by
  unfold readSnapshot lookupRef
  rw [h]

/-- removeTodo leaves the heap untouched. -/
theorem removeTodo_heap (id : Nat) (s : TodoState) :
    (removeTodo id s).2.heap = s.heap := by
  unfold removeTodo
  cases s.ledger.findIdx? (fun r => (lookupRef s r).id == id) <;> rfl

/-- Counterexample to C5 as stated: a snapshot taken before an
updateTodoStatus call does observe the status mutation, because the
snapshot array shares the task objects with the internal array. The ledger
holds one pending task; after updating it to completed, reading the old
snapshot shows status completed rather than the pending value it held when
the snapshot was taken. -/
theorem C5_counterexample :
    readSnapshot (getTodos (setTodos [⟨"t", TodoStatus.pending⟩] initTodoState).2)
        (setTodos [⟨"t", TodoStatus.pending⟩] initTodoState).2 =
      [⟨1, "t", TodoStatus.pending⟩] ∧
    readSnapshot (getTodos (setTodos [⟨"t", TodoStatus.pending⟩] initTodoState).2)
        (updateTodoStatus 1 TodoStatus.completed
          (setTodos [⟨"t", TodoStatus.pending⟩] initTodoState).2).2 =
      [⟨1, "t", TodoStatus.completed⟩] := by
  decide

/-- C5 amended: the value returned by getTodos is a copy of the array
only: array-level mutations after the call (add, remove, and bulk replace,
which allocates fresh objects) are not observable through the previously
returned snapshot; in-place mutations of task objects that were present at
snapshot time (updateTodoStatus, updateTodoTask) remain observable through
the shared objects. -/
theorem C5_amended_snapshot_frame (s : TodoState) (h : refsValid s)
    (task : String) (st : TodoStatus) (id : Nat) (items : List TodoInput) :
    readSnapshot (getTodos s) (addTodo task st s).2 =
      readSnapshot (getTodos s) s ∧
    readSnapshot (getTodos s) (removeTodo id s).2 =
      readSnapshot (getTodos s) s ∧
    readSnapshot (getTodos s) (setTodos items s).2 =
      readSnapshot (getTodos s) s := by
  refine ⟨?_, ?_, ?_⟩
  · refine List.map_congr_left (fun r hr => ?_)
    exact getD_append_left s.heap [⟨s.nextTodoId, task, st⟩] r _ (h r hr)
  · exact readSnapshot_heap_eq _ _ _ (removeTodo_heap id s)
  · refine List.map_congr_left (fun r hr => ?_)
    exact getD_append_left s.heap (assignIds 1 items) r _ (h r hr)

/-- Witness for C5 amended at a concrete one-task state. -/
theorem C5_amended_witness :
    readSnapshot (getTodos (setTodos [⟨"t", TodoStatus.pending⟩] initTodoState).2)
        (addTodo "u" TodoStatus.pending
          (setTodos [⟨"t", TodoStatus.pending⟩] initTodoState).2).2 =
      readSnapshot (getTodos (setTodos [⟨"t", TodoStatus.pending⟩] initTodoState).2)
        (setTodos [⟨"t", TodoStatus.pending⟩] initTodoState).2 ∧
    readSnapshot (getTodos (setTodos [⟨"t", TodoStatus.pending⟩] initTodoState).2)
        (removeTodo 1 (setTodos [⟨"t", TodoStatus.pending⟩] initTodoState).2).2 =
      readSnapshot (getTodos (setTodos [⟨"t", TodoStatus.pending⟩] initTodoState).2)
        (setTodos [⟨"t", TodoStatus.pending⟩] initTodoState).2 ∧
    readSnapshot (getTodos (setTodos [⟨"t", TodoStatus.pending⟩] initTodoState).2)
        (setTodos [⟨"u", TodoStatus.completed⟩]
          (setTodos [⟨"t", TodoStatus.pending⟩] initTodoState).2).2 =
      readSnapshot (getTodos (setTodos [⟨"t", TodoStatus.pending⟩] initTodoState).2)
        (setTodos [⟨"t", TodoStatus.pending⟩] initTodoState).2 :=
  C5_amended_snapshot_frame (setTodos [⟨"t", TodoStatus.pending⟩] initTodoState).2
    (by unfold refsValid; decide) "u" TodoStatus.pending 1
    [⟨"u", TodoStatus.completed⟩]

/-! ## Claim C1: the completion gate (src/tools/mark-complete.ts) -/

/-- The gate decision of the mark-complete tool: with any task whose status
is not completed it refuses, returning the incomplete tasks; otherwise it
falls through to the interactive confirmation prompt. -/
inductive MarkCompleteGate
  | refuse (remaining : List Todo)
  | askConfirmation
deriving DecidableEq, Repr

/-- The gate check of markCompleteTool.execute: filter the current todos to
those with status other than completed; refuse when that list is nonempty,
otherwise proceed to ask the user for confirmation. -/
def markCompleteGate (s : TodoState) : MarkCompleteGate :=
  let incompleteTasks :=
    (viewTodos s).filter (fun t => !(t.status == TodoStatus.completed))
  if 0 < incompleteTasks.length then .refuse incompleteTasks
  else .askConfirmation

/-- Counterexample to C1 as stated: on the empty ledger (total = 0 and
completed = total) the mark-complete tool does not refuse; its incomplete
filter is empty, so it proceeds straight to the confirmation prompt. -/
theorem C1_counterexample :
    markCompleteGate initTodoState = MarkCompleteGate.askConfirmation ∧
    (getTodoSummary initTodoState).total = 0 := by
  decide

/-- Completed count equals total exactly when no task has another status. -/
theorem completed_count_eq_total_iff (l : List Todo) :
    (l.filter (fun t => t.status == TodoStatus.completed)).length = l.length ↔
    l.filter (fun t => !(t.status == TodoStatus.completed)) = [] := by
  constructor
  · intro h
    have hself : l.filter (fun t => t.status == TodoStatus.completed) = l :=
      (List.filter_sublist l).eq_of_length h
    have hall : ∀ t ∈ l, (t.status == TodoStatus.completed) = true := by
      intro t ht
      have ht2 : t ∈ l.filter (fun t => t.status == TodoStatus.completed) := by
        rw [hself]; exact ht
      exact (List.mem_filter.mp ht2).2
    simp only [List.filter_eq_nil_iff]
    intro t ht
    simp [hall t ht]
  · intro h
    have hall : ∀ t ∈ l, (t.status == TodoStatus.completed) = true := by
      intro t ht
      have h2 := List.filter_eq_nil_iff.mp h t ht
      simpa using h2
    rw [List.filter_eq_self.mpr hall]

/-- C1 amended: the mark-complete tool refuses exactly when some tracked
task is not completed, that is when summary completed differs from summary
total, and then it returns precisely the unfinished tasks; when completed
equals total, including the empty ledger with total = 0, it proceeds to
request the external confirmation step. -/
theorem C1_amended_completion_gate (s : TodoState) :
    ((getTodoSummary s).completed ≠ (getTodoSummary s).total →
      markCompleteGate s =
        MarkCompleteGate.refuse
          ((viewTodos s).filter (fun t => !(t.status == TodoStatus.completed))) ∧
      (viewTodos s).filter (fun t => !(t.status == TodoStatus.completed)) ≠ []) ∧
    ((getTodoSummary s).completed = (getTodoSummary s).total →
      markCompleteGate s = MarkCompleteGate.askConfirmation) := by
  have hiff := completed_count_eq_total_iff (viewTodos s)
  constructor
  · intro hne
    have hne2 : (viewTodos s).filter (fun t => !(t.status == TodoStatus.completed)) ≠ [] := by
      intro hnil
      exact hne (hiff.mpr hnil)
    refine ⟨?_, hne2⟩
    unfold markCompleteGate
    rw [if_pos]
    exact List.length_pos.mpr hne2
  · intro heq
    have hnil := hiff.mp heq
    unfold markCompleteGate
    rw [hnil]
    rfl

/-- Witness for C1 amended, matching the spec scenario: with tasks
[completed, pending] the gate refuses and lists exactly the pending task;
with a single completed task it proceeds to confirmation. -/
theorem C1_amended_witness :
    markCompleteGate
        (setTodos [⟨"a", TodoStatus.completed⟩, ⟨"b", TodoStatus.pending⟩]
          initTodoState).2 =
      MarkCompleteGate.refuse [⟨2, "b", TodoStatus.pending⟩] ∧
    markCompleteGate (setTodos [⟨"a", TodoStatus.completed⟩] initTodoState).2 =
      MarkCompleteGate.askConfirmation := by
  constructor
  · have h := ((C1_amended_completion_gate
      (setTodos [⟨"a", TodoStatus.completed⟩, ⟨"b", TodoStatus.pending⟩]
        initTodoState).2).1 (by decide)).1
    rw [h]
    decide
  · exact (C1_amended_completion_gate
      (setTodos [⟨"a", TodoStatus.completed⟩] initTodoState).2).2 (by decide)

/-! ## External-process session (src/tools/claude-session.ts) -/

/-- Session configuration (the SessionConfig interface). -/
structure SessionConfig where
  workingDirectory : String
  yoloMode : Bool
deriving DecidableEq, Repr

/-- The fields of a ClaudeSession object. Session tokens are opaque ids
produced by randomUUID; the model draws them from a counter supply, which
captures exactly the property the code relies on: every draw differs from
every other draw. -/
structure ClaudeSession where
  sessionId : Nat
  workingDirectory : String
  yoloMode : Bool
  isFirstCall : Bool
  callCount : Nat
deriving DecidableEq, Repr

/-- The constructor: fresh token, isFirstCall true, callCount 0. -/
def newClaudeSession (config : SessionConfig) (token : Nat) : ClaudeSession :=
  { sessionId := token
    workingDirectory := config.workingDirectory
    yoloMode := config.yoloMode
    isFirstCall := true
    callCount := 0 }

/-- The shape of the invocation built by send: the first call establishes
the session with the --session-id flag and its token, every later call
resumes that token with the --resume flag. -/
inductive SessionInvocation
  | create (token : Nat)
  | resume (token : Nat)
deriving DecidableEq, Repr

/-- The argument building and state update at the head of send: increment
callCount, pick --session-id on the first call and --resume afterwards,
and flip isFirstCall permanently after the first call. -/
def sendInvocation (s : ClaudeSession) : SessionInvocation × ClaudeSession :=
  let s1 := { s with callCount := s.callCount + 1 }
  if s.isFirstCall then
    (SessionInvocation.create s.sessionId, { s1 with isFirstCall := false })
  else
    (SessionInvocation.resume s.sessionId, s1)

/-- The module-level singleton slot (activeSession), together with the
token supply modelling randomUUID freshness. -/
structure SessionSlot where
  active : Option ClaudeSession
  nextToken : Nat
deriving DecidableEq, Repr

/-- getOrCreateSession: return the active session, or build a new one with
a fresh token and install it. -/
def getOrCreateSession (config : SessionConfig) (slot : SessionSlot) :
    ClaudeSession × SessionSlot :=
  match slot.active with
  | some sess => (sess, slot)
  | none =>
    let sess := newClaudeSession config slot.nextToken
    (sess, { active := some sess, nextToken := slot.nextToken + 1 })

/-- resetSession: clear the slot (the global start time it also clears is
not part of the lifecycle model). -/
def resetSession (slot : SessionSlot) : SessionSlot :=
  { slot with active := none }

/-! ## Claim C2 -/

/-- C2: on a freshly created session the first send builds a create
invocation carrying the session token; every subsequent send on the same
session builds a resume invocation referencing that same token (and leaves
the session permanently out of its first-call state); after reset followed
by re-creation, the next send builds a create invocation whose token
differs from the previous session token. -/
theorem C2_session_lifecycle (config config' : SessionConfig)
    (slot : SessionSlot) (h : slot.active = none) :
    (sendInvocation (getOrCreateSession config slot).1).1 =
      SessionInvocation.create (getOrCreateSession config slot).1.sessionId ∧
    (sendInvocation (sendInvocation (getOrCreateSession config slot).1).2).1 =
      SessionInvocation.resume (getOrCreateSession config slot).1.sessionId ∧
    (∀ t : ClaudeSession, t.isFirstCall = false →
      (sendInvocation t).1 = SessionInvocation.resume t.sessionId ∧
      (sendInvocation t).2.sessionId = t.sessionId ∧
      (sendInvocation t).2.isFirstCall = false) ∧
    (sendInvocation
        (getOrCreateSession config'
          (resetSession (getOrCreateSession config slot).2)).1).1 =
      SessionInvocation.create
        (getOrCreateSession config'
          (resetSession (getOrCreateSession config slot).2)).1.sessionId ∧
    (getOrCreateSession config'
        (resetSession (getOrCreateSession config slot).2)).1.sessionId ≠
      (getOrCreateSession config slot).1.sessionId := by
  refine ⟨?_, ?_, ?_, ?_, ?_⟩
  · simp [getOrCreateSession, h, newClaudeSession, sendInvocation]
  · simp [getOrCreateSession, h, newClaudeSession, sendInvocation]
  · intro t ht
    simp [sendInvocation, ht]
  · simp [getOrCreateSession, h, newClaudeSession, resetSession, sendInvocation]
  · simp [getOrCreateSession, h, newClaudeSession, resetSession]

/-- Witness for C2 with the empty slot and a zero token supply. -/
theorem C2_witness :
    (sendInvocation (getOrCreateSession ⟨"/w", true⟩ ⟨none, 0⟩).1).1 =
      SessionInvocation.create (getOrCreateSession ⟨"/w", true⟩ ⟨none, 0⟩).1.sessionId ∧
    (sendInvocation (sendInvocation (getOrCreateSession ⟨"/w", true⟩ ⟨none, 0⟩).1).2).1 =
      SessionInvocation.resume (getOrCreateSession ⟨"/w", true⟩ ⟨none, 0⟩).1.sessionId ∧
    (∀ t : ClaudeSession, t.isFirstCall = false →
      (sendInvocation t).1 = SessionInvocation.resume t.sessionId ∧
      (sendInvocation t).2.sessionId = t.sessionId ∧
      (sendInvocation t).2.isFirstCall = false) ∧
    (sendInvocation
        (getOrCreateSession ⟨"/w", true⟩
          (resetSession (getOrCreateSession ⟨"/w", true⟩ ⟨none, 0⟩).2)).1).1 =
      SessionInvocation.create
        (getOrCreateSession ⟨"/w", true⟩
          (resetSession (getOrCreateSession ⟨"/w", true⟩ ⟨none, 0⟩).2)).1.sessionId ∧
    (getOrCreateSession ⟨"/w", true⟩
        (resetSession (getOrCreateSession ⟨"/w", true⟩ ⟨none, 0⟩).2)).1.sessionId ≠
      (getOrCreateSession ⟨"/w", true⟩ ⟨none, 0⟩).1.sessionId :=
  C2_session_lifecycle ⟨"/w", true⟩ ⟨"/w", true⟩ ⟨none, 0⟩ rfl

/-! ## Claim C4: send timeout supervision -/

/-- The resolved value of send (the ClaudeResponse interface). -/
structure ClaudeResponse where
  output : String
  exitCode : Int
  success : Bool
deriving DecidableEq, Repr

/-- The observable behaviour of one spawned child process: it fails to
spawn, closes at a given time with an exit code and aggregated stdout and
stderr, or never closes. -/
inductive ProcessRun
  | spawnFails (message : String)
  | closes (atMs : Nat) (code : Int) (stdout stderr : String)
  | hangs
deriving DecidableEq, Repr

/-- The settling of the send promise: the resolved response, the time at
which the promise resolves, and whether the child was killed. -/
structure SendOutcome where
  response : ClaudeResponse
  resolvedAtMs : Nat
  killed : Bool
deriving DecidableEq, Repr

/-- The race inside send between the close handler, the error handler and
the timeout handler; whichever fires first settles the promise, which can
settle only once. A close event strictly before the deadline settles with
the aggregated output (stderr appended when the exit code is nonzero);
otherwise the timeout fires at the deadline, kills the child with SIGTERM,
and settles with the output aggregated so far plus the timeout marker,
exit code 124 and success false. A spawn error settles immediately with
the error marker and exit code 1. The outputBefore argument is the stdout
already aggregated when the deadline is reached. -/
def sendRun (run : ProcessRun) (outputBefore : String) (timeoutMs : Nat) :
    SendOutcome :=
  match run with
  | .spawnFails msg =>
    { response := { output := "[ERROR]: " ++ msg, exitCode := 1, success := false }
      resolvedAtMs := 0
      killed := false }
  | .closes atMs code out err =>
    if atMs < timeoutMs then
      { response :=
          { output := out ++ (if err ≠ "" ∧ code ≠ 0 then "\n[STDERR]: " ++ err else "")
            exitCode := code
            success := code == 0 }
        resolvedAtMs := atMs
        killed := false }
    else
      { response := { output := outputBefore ++ "\n[TIMEOUT]", exitCode := 124, success := false }
        resolvedAtMs := timeoutMs
        killed := true }
  | .hangs =>
    { response := { output := outputBefore ++ "\n[TIMEOUT]", exitCode := 124, success := false }
      resolvedAtMs := timeoutMs
      killed := true }

/-- The process exceeds the configured timeout: it either closes strictly
after the deadline or never closes. -/
def exceedsTimeout (run : ProcessRun) (timeoutMs : Nat) : Prop :=
  match run with
  | .spawnFails _ => False
  | .closes atMs _ _ _ => timeoutMs < atMs
  | .hangs => True

/-- C4: for every send whose spawned process exceeds the configured
timeout, the promise resolves at the deadline (it does not hang past the
bound) with success false, exit code 124, an output string ending in the
timeout marker, and the process is forcibly terminated. -/
theorem C4_timeout_resolution (run : ProcessRun) (outputBefore : String)
    (timeoutMs : Nat) (h : exceedsTimeout run timeoutMs) :
    sendRun run outputBefore timeoutMs =
      { response :=
          { output := outputBefore ++ "\n[TIMEOUT]", exitCode := 124, success := false }
        resolvedAtMs := timeoutMs
        killed := true } ∧
    (sendRun run outputBefore timeoutMs).resolvedAtMs ≤ timeoutMs ∧
    "[TIMEOUT]".data <:+ (sendRun run outputBefore timeoutMs).response.output.data := by
  have hout : sendRun run outputBefore timeoutMs =
      { response :=
          { output := outputBefore ++ "\n[TIMEOUT]", exitCode := 124, success := false }
        resolvedAtMs := timeoutMs
        killed := true } := by
    cases run with
    | spawnFails msg => exact absurd h (by simp [exceedsTimeout])
    | closes atMs code out err =>
      have hlt : timeoutMs < atMs := h
      simp only [sendRun]
      rw [if_neg (by omega)]
    | hangs => rfl
  refine ⟨hout, ?_, ?_⟩
  · rw [hout]
  · rw [hout]
    show "[TIMEOUT]".data <:+ (outputBefore ++ "\n[TIMEOUT]").data
    refine ⟨outputBefore.data ++ ['\n'], ?_⟩
    rw [String.data_append]
    simp

/-- Witness for C4: a process that would close at 400 ms against a 300 ms
deadline. -/
theorem C4_witness :
    sendRun (ProcessRun.closes 400 0 "partly" "") "partly" 300 =
      { response :=
          { output := "partly" ++ "\n[TIMEOUT]", exitCode := 124, success := false }
        resolvedAtMs := 300
        killed := true } ∧
    (sendRun (ProcessRun.closes 400 0 "partly" "") "partly" 300).resolvedAtMs ≤ 300 ∧
    "[TIMEOUT]".data <:+
      (sendRun (ProcessRun.closes 400 0 "partly" "") "partly" 300).response.output.data :=
  C4_timeout_resolution (ProcessRun.closes 400 0 "partly" "") "partly" 300
    (by show (300 : Nat) < 400; omega)

/-! ## Orchestrator-driven provider loop (src/providers/anthropic-provider.ts) -/

/-- One requested tool call, as parsed from a tool_use content block. -/
structure ToolCallReq where
  id : String
  name : String
  input : String
deriving DecidableEq, Repr

/-- One scripted model response: the text of the assistant turn plus the
tool_use blocks pending at the end of the turn. -/
structure ModelResponse where
  text : String
  toolCalls : List ToolCallReq
deriving DecidableEq, Repr

/-- The behaviour of a registered tool on a given raw input: a normal
result or a thrown error. -/
inductive ToolOutcome
  | ok (result : String)
  | throws (message : String)
deriving DecidableEq, Repr

/-- The tool registry handed to run and invoke, keyed by tool name. The
source builds a Map from the tool list; tool names are unique per registry,
so first-match lookup agrees with the Map. -/
def ToolRegistry := List (String × (String → ToolOutcome))

/-- Lookup in the registry Map. -/
def lookupTool : ToolRegistry → String → Option (String → ToolOutcome)
  | [], _ => none
  | (n, f) :: rest, name => if n == name then some f else lookupTool rest name

/-- One tool_result block. -/
structure ToolResult where
  toolUseId : String
  content : String
  isError : Bool
deriving DecidableEq, Repr

/-- Executing one registered tool: a thrown error is caught and turned into
a tool_result marked as an error. -/
def runTool (f : String → ToolOutcome) (c : ToolCallReq) : ToolResult :=
  match f c.input with
  | .ok r => ⟨c.id, r, false⟩
  | .throws m => ⟨c.id, "Error: " ++ m, true⟩

/-- The tool-execution pass over the pending tool calls of one turn: calls
whose name is not in the registry produce no tool_result block at all; the
others produce exactly one block each, in order. -/
def execTools (reg : ToolRegistry) : List ToolCallReq → List ToolResult
  | [] => []
  | c :: cs =>
    match lookupTool reg c.name with
    | none => execTools reg cs
    | some f => runTool f c :: execTools reg cs

/-- One conversation turn appended by the loop: the assistant turn with its
raw content, or the synthetic user turn holding the tool results. -/
inductive Turn
  | assistant (response : ModelResponse)
  | toolResults (results : List ToolResult)
deriving DecidableEq, Repr

/-- The final value of run and invoke (the AgentResult interface). -/
structure AgentResult where
  success : Bool
  output : String
  toolCalls : List ToolCallReq
deriving DecidableEq, Repr

/-- The loop-carried state: the conversation, the accumulated assistant
text, and the collected tool calls. -/
structure LoopState where
  messages : List Turn
  outputText : String
  collected : List ToolCallReq
deriving DecidableEq, Repr

/-- The while loop of AnthropicProvider.run and AnthropicProvider.invoke,
driven by a scripted sequence of model responses. Each iteration
accumulates the turn text and its tool calls; with one or more pending
tool calls it executes them through the registry, appends the assistant
turn and one synthetic tool-result turn, and re-issues a request;
with zero pending tool calls it terminates, returning the accumulated
text as output with success true. An exhausted script (the environment
supplied no further response to the re-issued request) is none. -/
def runLoop (reg : ToolRegistry) (st : LoopState) :
    List ModelResponse → Option (LoopState × AgentResult)
  | [] => none
  | r :: rest =>
    let st1 : LoopState :=
      { st with
          outputText := st.outputText ++ r.text
          collected := st.collected ++ r.toolCalls }
    if 0 < r.toolCalls.length then
      runLoop reg
        { st1 with
            messages := st1.messages ++
              [Turn.assistant r, Turn.toolResults (execTools reg r.toolCalls)] }
        rest
    else
      some (st1, { success := true, output := st1.outputText, toolCalls := st1.collected })

/-- The pairs of turns appended over a run, one assistant turn plus one
tool-result turn per response that ended with pending tool calls. -/
def loopTurns (reg : ToolRegistry) : List ModelResponse → List Turn
  | [] => []
  | r :: rs =>
    Turn.assistant r :: Turn.toolResults (execTools reg r.toolCalls) :: loopTurns reg rs

/-- Concatenated assistant text of a response sequence. -/
def joinTexts : List ModelResponse → String
  | [] => ""
  | r :: rs => r.text ++ joinTexts rs

/-- Concatenated tool calls of a response sequence. -/
def allCalls : List ModelResponse → List ToolCallReq
  | [] => []
  | r :: rs => r.toolCalls ++ allCalls rs

/-- When every call of a turn names a registered tool, the pass produces
one block per call. -/
theorem execTools_length_registered (reg : ToolRegistry)
    (calls : List ToolCallReq)
    (h : ∀ c ∈ calls, (lookupTool reg c.name).isSome = true) :
    (execTools reg calls).length = calls.length := by
  induction calls with
  | nil => rfl
  | cons c cs ih =>
    have hc := h c (by simp)
    cases hf : lookupTool reg c.name with
    | none => rw [hf] at hc; simp at hc
    | some f =>
      simp only [execTools, hf, List.length_cons]
      rw [ih (fun d hd => h d (by simp [hd]))]

/-- A registered tool call whose execution throws contributes a
tool_result block marked as an error. -/
theorem execTools_error_surfaced (reg : ToolRegistry)
    (calls : List ToolCallReq) (c : ToolCallReq)
    (f : String → ToolOutcome) (m : String) (hc : c ∈ calls)
    (hf : lookupTool reg c.name = some f)
    (hm : f c.input = ToolOutcome.throws m) :
    ToolResult.mk c.id ("Error: " ++ m) true ∈ execTools reg calls := by
  induction calls with
  | nil => simp at hc
  | cons d ds ih =>
    rcases List.mem_cons.mp hc with rfl | hd
    · simp only [execTools, hf]
      have : runTool f c = ToolResult.mk c.id ("Error: " ++ m) true := by
        unfold runTool
        rw [hm]
      rw [this]
      simp
    · cases hg : lookupTool reg d.name with
      | none => simpa [execTools, hg] using ih hd
      | some g =>
        simp only [execTools, hg, List.mem_cons]
        exact Or.inr (ih hd)

/-! ## Claim C3 -/

/-- C3: for every scripted sequence made of responses each ending with
pending tool calls that all name registered tools, followed by a first
response with zero pending tool calls, the loop executes the pending calls
of each turn through the registry (one tool-result block per call, a
throwing tool surfaced as a block marked as an error rather than
terminating the loop), appends per turn the assistant turn and one
synthetic tool-result turn, and terminates exactly on the first
zero-pending response, ignoring everything after it and returning the
accumulated assistant text with success, together with all collected tool
calls. -/
theorem C3_provider_loop (reg : ToolRegistry) (pre : List ModelResponse)
    (final : ModelResponse) (rest : List ModelResponse) (st : LoopState)
    (hpre : ∀ r ∈ pre, r.toolCalls ≠ [])
    (hfinal : final.toolCalls = [])
    (hreg : ∀ r ∈ pre, ∀ c ∈ r.toolCalls, (lookupTool reg c.name).isSome = true) :
    runLoop reg st (pre ++ final :: rest) =
      some
        ({ messages := st.messages ++ loopTurns reg pre
           outputText := st.outputText ++ joinTexts pre ++ final.text
           collected := st.collected ++ allCalls pre },
         { success := true
           output := st.outputText ++ joinTexts pre ++ final.text
           toolCalls := st.collected ++ allCalls pre }) ∧
    (∀ r ∈ pre, (execTools reg r.toolCalls).length = r.toolCalls.length) ∧
    (∀ r ∈ pre, ∀ c ∈ r.toolCalls, ∀ f m, lookupTool reg c.name = some f →
      f c.input = ToolOutcome.throws m →
      ToolResult.mk c.id ("Error: " ++ m) true ∈ execTools reg r.toolCalls) := by
  refine ⟨?_, ?_, ?_⟩
  · induction pre generalizing st with
    | nil =>
      simp only [List.nil_append, runLoop, hfinal, List.length_nil, Nat.lt_irrefl,
        if_false, loopTurns, joinTexts, allCalls, List.append_nil, String.append_empty]
    | cons r rs ih =>
      have hr : r.toolCalls ≠ [] := hpre r (by simp)
      have hlen : 0 < r.toolCalls.length := List.length_pos.mpr hr
      simp only [List.cons_append, runLoop, if_pos hlen, List.append_eq]
      rw [ih _ (fun q hq => hpre q (List.mem_cons_of_mem r hq))
        (fun q hq => hreg q (List.mem_cons_of_mem r hq))]
      simp [loopTurns, joinTexts, allCalls, String.append_assoc, List.append_assoc]
  · intro r hr
    exact execTools_length_registered reg r.toolCalls (hreg r hr)
  · intro r hr c hc f m hf hm
    exact execTools_error_surfaced reg r.toolCalls c f m hc hf hm

/-- Witness for C3: the scripted sequence of the spec scenario, two
tool-call turns (the second tool throwing) followed by a final text,
with a trailing unread response. -/
theorem C3_witness :
    runLoop [("t1", fun _ => ToolOutcome.ok "r1"),
             ("t2", fun _ => ToolOutcome.throws "boom")]
        ⟨[], "", []⟩
        ([⟨"", [⟨"c1", "t1", "i1"⟩]⟩, ⟨"", [⟨"c2", "t2", "i2"⟩]⟩] ++
          ⟨"done", []⟩ :: [⟨"unread", []⟩]) =
      some
        ({ messages := [] ++ loopTurns
             [("t1", fun _ => ToolOutcome.ok "r1"),
              ("t2", fun _ => ToolOutcome.throws "boom")]
             [⟨"", [⟨"c1", "t1", "i1"⟩]⟩, ⟨"", [⟨"c2", "t2", "i2"⟩]⟩]
           outputText := "" ++ joinTexts
             [⟨"", [⟨"c1", "t1", "i1"⟩]⟩, ⟨"", [⟨"c2", "t2", "i2"⟩]⟩] ++ "done"
           collected := [] ++ allCalls
             [⟨"", [⟨"c1", "t1", "i1"⟩]⟩, ⟨"", [⟨"c2", "t2", "i2"⟩]⟩] },
         { success := true
           output := "" ++ joinTexts
             [⟨"", [⟨"c1", "t1", "i1"⟩]⟩, ⟨"", [⟨"c2", "t2", "i2"⟩]⟩] ++ "done"
           toolCalls := [] ++ allCalls
             [⟨"", [⟨"c1", "t1", "i1"⟩]⟩, ⟨"", [⟨"c2", "t2", "i2"⟩]⟩] }) ∧
    (∀ r ∈ [(⟨"", [⟨"c1", "t1", "i1"⟩]⟩ : ModelResponse),
            ⟨"", [⟨"c2", "t2", "i2"⟩]⟩],
      (execTools [("t1", fun _ => ToolOutcome.ok "r1"),
                  ("t2", fun _ => ToolOutcome.throws "boom")] r.toolCalls).length =
        r.toolCalls.length) ∧
    (∀ r ∈ [(⟨"", [⟨"c1", "t1", "i1"⟩]⟩ : ModelResponse),
            ⟨"", [⟨"c2", "t2", "i2"⟩]⟩],
      ∀ c ∈ r.toolCalls, ∀ f m,
        lookupTool [("t1", fun _ => ToolOutcome.ok "r1"),
                    ("t2", fun _ => ToolOutcome.throws "boom")] c.name = some f →
        f c.input = ToolOutcome.throws m →
        ToolResult.mk c.id ("Error: " ++ m) true ∈
          execTools [("t1", fun _ => ToolOutcome.ok "r1"),
                     ("t2", fun _ => ToolOutcome.throws "boom")] r.toolCalls) :=
  C3_provider_loop
    [("t1", fun _ => ToolOutcome.ok "r1"), ("t2", fun _ => ToolOutcome.throws "boom")]
    [⟨"", [⟨"c1", "t1", "i1"⟩]⟩, ⟨"", [⟨"c2", "t2", "i2"⟩]⟩]
    ⟨"done", []⟩ [⟨"unread", []⟩] ⟨[], "", []⟩
    (by intro r hr; fin_cases hr <;> simp)
    rfl
    (by intro r hr; fin_cases hr <;> intro c hc <;> fin_cases hc <;> rfl)

/-! ## Claim C10 -/

/-- C10: in the tool-execution pass of the loop, a pending call naming a
tool absent from the registry contributes no tool_result block at all (it
is silently skipped, not reported as an error result), while the calls
naming registered tools produce exactly one block each, in order; the
resulting block list is appended to the conversation as the single
synthetic tool-result turn of that iteration. -/
theorem C10_unregistered_tool_skipped (reg : ToolRegistry)
    (calls : List ToolCallReq) (st : LoopState) (r : ModelResponse)
    (rest : List ModelResponse) (h : 0 < r.toolCalls.length) :
    (execTools reg calls).map ToolResult.toolUseId =
      (calls.filter (fun c => (lookupTool reg c.name).isSome)).map ToolCallReq.id ∧
    (execTools reg calls).length =
      (calls.filter (fun c => (lookupTool reg c.name).isSome)).length ∧
    runLoop reg st (r :: rest) =
      runLoop reg
        { messages := st.messages ++
            [Turn.assistant r, Turn.toolResults (execTools reg r.toolCalls)]
          outputText := st.outputText ++ r.text
          collected := st.collected ++ r.toolCalls }
        rest := by
  refine ⟨?_, ?_, ?_⟩
  · induction calls with
    | nil => rfl
    | cons c cs ih =>
      cases hf : lookupTool reg c.name with
      | none => simpa [execTools, hf, List.filter_cons] using ih
      | some f =>
        have hid : (runTool f c).toolUseId = c.id := by
          unfold runTool
          cases f c.input <;> rfl
        simp [execTools, hf, List.filter_cons, hid, ih]
  · induction calls with
    | nil => rfl
    | cons c cs ih =>
      cases hf : lookupTool reg c.name with
      | none => simpa [execTools, hf, List.filter_cons] using ih
      | some f => simp [execTools, hf, List.filter_cons, ih]
  · simp only [runLoop, if_pos h]

/-- Witness for C10: a registry holding only tool a, with pending calls to
tool a and to the unregistered tool b. -/
theorem C10_witness :
    (execTools [("a", fun _ => ToolOutcome.ok "ra")]
        [⟨"c1", "a", "i"⟩, ⟨"c2", "b", "i"⟩]).map ToolResult.toolUseId =
      (([⟨"c1", "a", "i"⟩, ⟨"c2", "b", "i"⟩] : List ToolCallReq).filter
        (fun c => (lookupTool [("a", fun _ => ToolOutcome.ok "ra")] c.name).isSome)).map
        ToolCallReq.id ∧
    (execTools [("a", fun _ => ToolOutcome.ok "ra")]
        [⟨"c1", "a", "i"⟩, ⟨"c2", "b", "i"⟩]).length =
      (([⟨"c1", "a", "i"⟩, ⟨"c2", "b", "i"⟩] : List ToolCallReq).filter
        (fun c => (lookupTool [("a", fun _ => ToolOutcome.ok "ra")] c.name).isSome)).length ∧
    runLoop [("a", fun _ => ToolOutcome.ok "ra")] ⟨[], "", []⟩
        (⟨"x", [⟨"c1", "a", "i"⟩, ⟨"c2", "b", "i"⟩]⟩ :: [⟨"end", []⟩]) =
      runLoop [("a", fun _ => ToolOutcome.ok "ra")]
        { messages := [] ++
            [Turn.assistant ⟨"x", [⟨"c1", "a", "i"⟩, ⟨"c2", "b", "i"⟩]⟩,
             Turn.toolResults
               (execTools [("a", fun _ => ToolOutcome.ok "ra")]
                 [⟨"c1", "a", "i"⟩, ⟨"c2", "b", "i"⟩])]
          outputText := "" ++ "x"
          collected := [] ++ [⟨"c1", "a", "i"⟩, ⟨"c2", "b", "i"⟩] }
        [⟨"end", []⟩] :=
  C10_unregistered_tool_skipped [("a", fun _ => ToolOutcome.ok "ra")]
    [⟨"c1", "a", "i"⟩, ⟨"c2", "b", "i"⟩] ⟨[], "", []⟩
    ⟨"x", [⟨"c1", "a", "i"⟩, ⟨"c2", "b", "i"⟩]⟩ [⟨"end", []⟩]
    (by simp)

/-! ## Custom tool command substitution (src/tools/custom-tools.ts)

The substitution loop of executeCommand runs, for each argument entry in
map order, one global regex replace of the two placeholder forms of that
key over the current command string. A global replace scans the pass input
left to right, prefers the first alternative at each position, splices in
the replacement without rescanning it within the same pass, and resumes
scanning right after the match. Because the replacement is given as a
string, String.replace expands it per the GetSubstitution rules: a
dollar-dollar pair is a literal dollar, dollar-amp the matched text,
dollar-backquote the portion of the pass input before the match,
dollar-quote the portion after it, and a dollar followed by anything else
(digits included, since the compiled pattern has no capture groups) stays
literal. The scanner below implements exactly that pass over character
lists, threading the already scanned prefix for the backquote form, with a
fuel argument (one unit per scan step) to keep it structurally recursive
and kernel-computable. -/

/-- The left-brace character, written by code point. -/
def lbrace : Char := Char.ofNat 123

/-- The right-brace character, written by code point. -/
def rbrace : Char := Char.ofNat 125

/-- The dollar character, written by code point. -/
def dollar : Char := Char.ofNat 36

/-- The ampersand character, written by code point. -/
def amp : Char := Char.ofNat 38

/-- The backquote character, written by code point. -/
def backquote : Char := Char.ofNat 96

/-- The single-quote character, written by code point. -/
def singleQuote : Char := Char.ofNat 39

/-- Characters that stand for themselves in a regex source. executeCommand
interpolates the key unescaped into the RegExp source, so the two literal
alternatives below are the compiled pattern exactly when the parameter
name consists of such word characters; a name holding regex metacharacters
compiles to a different pattern and lies outside this model. -/
def regexPlainChar (c : Char) : Bool := c.isAlphanum || c == '_'

/-- The first placeholder alternative of the regex: two braces around the
key (the key taken literally, see regexPlainChar). -/
def pat1 (key : List Char) : List Char :=
  lbrace :: lbrace :: (key ++ [rbrace, rbrace])

/-- The second placeholder alternative of the regex: dollar-brace around
the key (the key taken literally, see regexPlainChar). -/
def pat2 (key : List Char) : List Char :=
  dollar :: lbrace :: (key ++ [rbrace])

/-- GetSubstitution for a string replacement under a pattern with no
capture groups: matched is the matched placeholder text, before and after
are the portions of the pass input around the match. A lone trailing
dollar, and a dollar before any character other than the four active ones,
stay literal. -/
def expandRepl (matched before after : List Char) : List Char → List Char
  | [] => []
  | [c] => [c]
  | c :: d :: ds =>
    if c = dollar then
      if d = dollar then dollar :: expandRepl matched before after ds
      else if d = amp then matched ++ expandRepl matched before after ds
      else if d = backquote then before ++ expandRepl matched before after ds
      else if d = singleQuote then after ++ expandRepl matched before after ds
      else c :: expandRepl matched before after (d :: ds)
    else c :: expandRepl matched before after (d :: ds)

/-- One global replace pass for one key: scan left to right, replace each
placeholder occurrence by the GetSubstitution expansion of the value, and
continue after the match. The done argument is the portion of the pass
input already scanned, feeding the backquote form of the expansion. -/
def substKeyAux (key val : List Char) : Nat → List Char → List Char → List Char
  | 0, _, rest => rest
  | _ + 1, _, [] => []
  | fuel + 1, done, c :: cs =>
    if (pat1 key).isPrefixOf (c :: cs) then
      expandRepl (pat1 key) done ((c :: cs).drop (pat1 key).length) val ++
        substKeyAux key val fuel (done ++ pat1 key) ((c :: cs).drop (pat1 key).length)
    else if (pat2 key).isPrefixOf (c :: cs) then
      expandRepl (pat2 key) done ((c :: cs).drop (pat2 key).length) val ++
        substKeyAux key val fuel (done ++ pat2 key) ((c :: cs).drop (pat2 key).length)
    else
      c :: substKeyAux key val fuel (done ++ [c]) cs

/-- One global replace pass, with enough fuel for the whole scan. -/
def substKey (key val hay : List Char) : List Char :=
  substKeyAux key val hay.length [] hay

/-- The whole substitution loop of executeCommand: fold the per-key passes
over the argument entries in map order. -/
def substCommand (command : String) (args : List (String × String)) : String :=
  String.mk (args.foldl (fun cmd kv => substKey kv.1.data kv.2.data cmd) command.data)

/-- A replacement value holding no dollar character expands to itself,
whatever the match context. -/
theorem expandRepl_no_dollar (matched before after : List Char) :
    ∀ val, dollar ∉ val → expandRepl matched before after val = val := by
  intro val
  induction val with
  | nil => intro hval; rfl
  | cons c cs ih =>
    intro hval
    cases cs with
    | nil => rfl
    | cons d ds =>
      have hc : c ≠ dollar := by
        intro h
        subst h
        exact hval (List.mem_cons_self _ _)
      have htail : dollar ∉ d :: ds := fun hm => hval (List.mem_cons_of_mem c hm)
      simp only [expandRepl]
      rw [if_neg hc, ih htail]

/-- The scan consumes at least one character per step, so any fuel of at
least the length of the haystack gives the same result. -/
theorem substKeyAux_fuel_irrelevant (key val : List Char) :
    ∀ fuel done hay, hay.length ≤ fuel →
      substKeyAux key val fuel done hay = substKeyAux key val hay.length done hay := by
  intro fuel
  induction fuel using Nat.strong_induction_on with
  | _ fuel ih =>
    intro done hay hlen
    cases fuel with
    | zero =>
      have h0 : hay = [] := List.eq_nil_of_length_eq_zero (Nat.le_zero.mp hlen)
      subst h0
      rfl
    | succ f =>
      cases hay with
      | nil => rfl
      | cons c cs =>
        have hcs : cs.length ≤ f := by
          simpa [Nat.succ_le_succ_iff] using hlen
        simp only [List.length_cons, substKeyAux]
        by_cases h1 : (pat1 key).isPrefixOf (c :: cs) = true
        · rw [if_pos h1, if_pos h1]
          have hd : ((c :: cs).drop (pat1 key).length).length ≤ cs.length := by
            rw [List.length_drop]
            simp only [pat1, List.length_cons, List.length_append]
            omega
          rw [ih f (Nat.lt_succ_self f) _ _ (le_trans hd hcs),
            ih cs.length (Nat.lt_succ_of_le hcs) _ _ hd]
        · rw [if_neg h1, if_neg h1]
          by_cases h2 : (pat2 key).isPrefixOf (c :: cs) = true
          · rw [if_pos h2, if_pos h2]
            have hd : ((c :: cs).drop (pat2 key).length).length ≤ cs.length := by
              rw [List.length_drop]
              simp only [pat2, List.length_cons, List.length_append]
              omega
            rw [ih f (Nat.lt_succ_self f) _ _ (le_trans hd hcs),
              ih cs.length (Nat.lt_succ_of_le hcs) _ _ hd]
          · rw [if_neg h2, if_neg h2, ih f (Nat.lt_succ_self f) _ cs hcs]

/-- When the value holds no dollar character, the expansion never looks at
the match context, so the scanned-prefix argument cannot influence the
pass. -/
theorem substKeyAux_done_irrelevant (key val : List Char)
    (hval : dollar ∉ val) :
    ∀ fuel done done' hay,
      substKeyAux key val fuel done hay = substKeyAux key val fuel done' hay := by
  intro fuel
  induction fuel with
  | zero => intro done done' hay; rfl
  | succ f ih =>
    intro done done' hay
    cases hay with
    | nil => rfl
    | cons c cs =>
      simp only [substKeyAux]
      by_cases h1 : (pat1 key).isPrefixOf (c :: cs) = true
      · rw [if_pos h1, if_pos h1,
          expandRepl_no_dollar _ _ _ val hval, expandRepl_no_dollar _ _ _ val hval,
          ih (done ++ pat1 key) (done' ++ pat1 key) _]
      · rw [if_neg h1, if_neg h1]
        by_cases h2 : (pat2 key).isPrefixOf (c :: cs) = true
        · rw [if_pos h2, if_pos h2,
            expandRepl_no_dollar _ _ _ val hval, expandRepl_no_dollar _ _ _ val hval,
            ih (done ++ pat2 key) (done' ++ pat2 key) _]
        · rw [if_neg h2, if_neg h2, ih (done ++ [c]) (done' ++ [c]) cs]

/-- A scan step over a character that can start no placeholder. -/
theorem substKeyAux_clean_cons (key val : List Char) (fuel : Nat)
    (done : List Char) (c : Char) (cs : List Char)
    (hc : c ≠ lbrace ∧ c ≠ dollar) :
    substKeyAux key val (fuel + 1) done (c :: cs) =
      c :: substKeyAux key val fuel (done ++ [c]) cs := by
  have h1 : (pat1 key).isPrefixOf (c :: cs) = false := by
    simp only [pat1, List.isPrefixOf, Bool.and_eq_false_iff]
    left
    exact beq_eq_false_iff_ne.mpr (fun h => hc.1 h.symm)
  have h2 : (pat2 key).isPrefixOf (c :: cs) = false := by
    simp only [pat2, List.isPrefixOf, Bool.and_eq_false_iff]
    left
    exact beq_eq_false_iff_ne.mpr (fun h => hc.2 h.symm)
  simp only [substKeyAux, h1, h2, Bool.false_eq_true, if_false]

/-- Text free of brace and dollar characters passes through a replace pass
unchanged, in front of whatever follows it, while accumulating into the
scanned prefix. -/
theorem substKeyAux_clean_front (key val : List Char) :
    ∀ pre done rest, (∀ c ∈ pre, c ≠ lbrace ∧ c ≠ dollar) →
      substKeyAux key val (pre ++ rest).length done (pre ++ rest) =
        pre ++ substKeyAux key val rest.length (done ++ pre) rest := by
  intro pre
  induction pre with
  | nil => intro done rest h; simp
  | cons c pre ih =>
    intro done rest h
    rw [List.cons_append,
      show (c :: (pre ++ rest)).length = (pre ++ rest).length + 1 from rfl,
      substKeyAux_clean_cons key val _ done c (pre ++ rest) (h c (by simp)),
      ih (done ++ [c]) rest (fun d hd => h d (by simp [hd]))]
    simp

/-- The wrapper at the pass level: clean text in front is emitted as is. -/
theorem substKey_skips_clean_text (key val pre rest : List Char)
    (hpre : ∀ c ∈ pre, c ≠ lbrace ∧ c ≠ dollar) :
    substKey key val (pre ++ rest) =
      pre ++ substKeyAux key val rest.length pre rest := by
  have h := substKeyAux_clean_front key val pre [] rest hpre
  simpa [substKey] using h

/-- A scan step at a position matching the first placeholder alternative. -/
theorem substKeyAux_step_match1 (key val : List Char) (fuel : Nat)
    (done hay : List Char) (h : (pat1 key).isPrefixOf hay = true) :
    substKeyAux key val (fuel + 1) done hay =
      expandRepl (pat1 key) done (hay.drop (pat1 key).length) val ++
        substKeyAux key val fuel (done ++ pat1 key) (hay.drop (pat1 key).length) := by
  cases hay with
  | nil => simp [pat1, List.isPrefixOf] at h
  | cons c cs => simp only [substKeyAux, h, if_true]

/-- A scan step at a position matching only the second alternative. -/
theorem substKeyAux_step_match2 (key val : List Char) (fuel : Nat)
    (done hay : List Char) (h1 : (pat1 key).isPrefixOf hay = false)
    (h2 : (pat2 key).isPrefixOf hay = true) :
    substKeyAux key val (fuel + 1) done hay =
      expandRepl (pat2 key) done (hay.drop (pat2 key).length) val ++
        substKeyAux key val fuel (done ++ pat2 key) (hay.drop (pat2 key).length) := by
  cases hay with
  | nil => simp [pat2, List.isPrefixOf] at h2
  | cons c cs =>
    simp only [substKeyAux, h1, h2, Bool.false_eq_true, if_false, if_true]

/-- A pass on a haystack opening with the braces placeholder splices in
the dollar-free value and continues after it. -/
theorem substKey_pat1_head (key val post done : List Char)
    (hval : dollar ∉ val) :
    substKeyAux key val (pat1 key ++ post).length done (pat1 key ++ post) =
      val ++ substKey key val post := by
  have hpre : (pat1 key).isPrefixOf (pat1 key ++ post) = true :=
    List.isPrefixOf_iff_prefix.mpr (List.prefix_append _ _)
  have hlen : (pat1 key ++ post).length = (key.length + 3 + post.length) + 1 := by
    simp only [pat1, List.length_append, List.length_cons, List.length_append]
    simp
    omega
  rw [hlen, substKeyAux_step_match1 key val _ done _ hpre, List.drop_left,
    expandRepl_no_dollar _ _ _ val hval,
    substKeyAux_fuel_irrelevant key val _ (done ++ pat1 key) post (by omega),
    substKeyAux_done_irrelevant key val hval post.length (done ++ pat1 key) []]
  rfl

/-- A pass on a haystack opening with the dollar-brace placeholder splices
in the dollar-free value and continues after it. -/
theorem substKey_pat2_head (key val post done : List Char)
    (hval : dollar ∉ val) :
    substKeyAux key val (pat2 key ++ post).length done (pat2 key ++ post) =
      val ++ substKey key val post := by
  have hpre2 : (pat2 key).isPrefixOf (pat2 key ++ post) = true :=
    List.isPrefixOf_iff_prefix.mpr (List.prefix_append _ _)
  have hpre1 : (pat1 key).isPrefixOf (pat2 key ++ post) = false := by
    simp only [pat1, pat2, List.cons_append, List.isPrefixOf, Bool.and_eq_false_iff]
    left
    exact beq_eq_false_iff_ne.mpr (by decide)
  have hlen : (pat2 key ++ post).length = (key.length + 2 + post.length) + 1 := by
    simp only [pat2, List.length_append, List.length_cons, List.length_append]
    simp
    omega
  rw [hlen, substKeyAux_step_match2 key val _ done _ hpre1 hpre2, List.drop_left,
    expandRepl_no_dollar _ _ _ val hval,
    substKeyAux_fuel_irrelevant key val _ (done ++ pat2 key) post (by omega),
    substKeyAux_done_irrelevant key val hval post.length (done ++ pat2 key) []]
  rfl

/-! ## Claim C9 -/

/-- Counterexample to C9 as stated: substitution is applied one argument
at a time in map order, so an argument value that itself contains a later
parameter placeholder is substituted again. With template run braces-a and
arguments a maps to braces-b, b maps to EVIL, the executed command is
run EVIL, not the template with each placeholder replaced by the value of
its own parameter, which would be run braces-b. -/
theorem C9_counterexample :
    substCommand "run \x7b\x7ba\x7d\x7d"
        [("a", "\x7b\x7bb\x7d\x7d"), ("b", "EVIL")] = "run EVIL" ∧
    ("run EVIL" : String) ≠ "run \x7b\x7bb\x7d\x7d" := by
  decide

/-- C9 amended: the executed command is obtained sequentially, one
argument at a time in map order; each pass replaces every braces or
dollar-brace placeholder of its key (parameter names restricted to word
characters, since the code interpolates the name unescaped into the
regex) by the value expanded under the GetSubstitution rules of
String.replace, and replaced text is subject to the later passes. For a
value free of dollar characters the expansion is the value itself, so a
placeholder following brace-free and dollar-free text is replaced by the
value literally; a value using the active dollar forms is transformed, as
dollar-amp re-inserting the matched placeholder and dollar-dollar
collapsing to one dollar show; in particular the template of the spec,
test braces-file with file mapping to a.ts, executes literally test a.ts. -/
theorem C9_amended_sequential_substitution (key val pre post : List Char)
    (hkey : ∀ c ∈ key, regexPlainChar c = true)
    (hpre : ∀ c ∈ pre, c ≠ lbrace ∧ c ≠ dollar)
    (hval : dollar ∉ val) :
    substKey key val (pre ++ (pat1 key ++ post)) =
      pre ++ (val ++ substKey key val post) ∧
    substKey key val (pre ++ (pat2 key ++ post)) =
      pre ++ (val ++ substKey key val post) ∧
    (∀ (cmd k v : String),
      substCommand cmd [(k, v)] = String.mk (substKey k.data v.data cmd.data)) ∧
    substCommand "run \x7b\x7ba\x7d\x7d" [("a", "$&")] = "run \x7b\x7ba\x7d\x7d" ∧
    substCommand "x\x7b\x7ba\x7d\x7d" [("a", "$$")] = "x$" ∧
    substCommand "test \x7b\x7bfile\x7d\x7d" [("file", "a.ts")] = "test a.ts" := by
  refine ⟨?_, ?_, ?_, ?_, ?_, ?_⟩
  · rw [substKey_skips_clean_text key val pre _ hpre,
      substKey_pat1_head key val post pre hval]
  · rw [substKey_skips_clean_text key val pre _ hpre,
      substKey_pat2_head key val post pre hval]
  · intro cmd k v
    rfl
  · decide
  · decide
  · decide

/-- Witness for C9 amended at the spec instance: key file (word
characters only), value a.ts (dollar-free), preceded by the clean text
test-space. -/
theorem C9_amended_witness :
    substKey "file".data "a.ts".data
        ("test ".data ++ (pat1 "file".data ++ [])) =
      "test ".data ++ ("a.ts".data ++ substKey "file".data "a.ts".data []) ∧
    substKey "file".data "a.ts".data
        ("test ".data ++ (pat2 "file".data ++ [])) =
      "test ".data ++ ("a.ts".data ++ substKey "file".data "a.ts".data []) ∧
    (∀ (cmd k v : String),
      substCommand cmd [(k, v)] = String.mk (substKey k.data v.data cmd.data)) ∧
    substCommand "run \x7b\x7ba\x7d\x7d" [("a", "$&")] = "run \x7b\x7ba\x7d\x7d" ∧
    substCommand "x\x7b\x7ba\x7d\x7d" [("a", "$$")] = "x$" ∧
    substCommand "test \x7b\x7bfile\x7d\x7d" [("file", "a.ts")] = "test a.ts" :=
  C9_amended_sequential_substitution "file".data "a.ts".data "test ".data []
    (by decide) (by decide) (by decide)

end FrinkLoop
